import Mathlib

/-
Verification of the gossh stream-forwarding core.

This file gives a shallow embedding, in Lean 4, of the parts of the gossh
repository that the checked properties are about:

- the two textual variants of `CopyBufferWithContext` (src/direct.go lines
  185-241 and src/client.go lines 248-303): a copy loop from a reader to a
  writer under a cooperative cancellation signal;
- `bindConnsWithBuffer` (src/direct.go lines 59-85): two concurrent copy
  directions joined by a wait group, each closing both connections;
- the per-connection task of `RedirectToWithBuffer` (src/direct.go lines
  90-131) and the accept loop of `DirectTcpToWithBuffer` (src/direct.go
  lines 141-175);
- `KeepAlive` (src/session.go lines 77-126);
- `KnownHostsChecker.KnownHostsCheck` (src/session.go lines 458-511);
- the `Session.Shell` / `Session.Exec` wrappers (src/session.go lines 53-63),
  over a model of the wrapped transport-library session.

Readers and writers are modelled as finite lists of read / write events: each
`Read` call consumes the next read event (an event carries the bytes read and
the error returned alongside them), a reader with no events left answers a
clean end of input (0 bytes, EOF), mirroring a finite source; each `Write`
call consumes the next write event (the count accepted and the error), a
writer with no events left accepts every byte.  The `WriterTo` / `ReaderFrom`
fast paths at the top of both copy functions are outside the embedding: it
covers the generic loop that runs when neither interface is implemented.
Bytes are Nat (the loop never inspects byte values, only counts), the int64
byte counter is Nat (the loop only ever adds a non-negative clamped write
count to it).
-/

namespace Gossh

/-- A chunk of bytes handed to or returned from one read or write call. -/
abbrev Chunk := List Nat

/-- The error values the copy loop of CopyBufferWithContext can see or
produce: clean end of input (Go io.EOF), io.ErrShortWrite, the package's
errInvalidWrite, the package's interruptedErr (src/direct.go line 243), and
arbitrary other read/write faults carried as a numeric code. -/
inductive GErr where
  | eof
  | shortWrite
  | invalidWrite
  | interrupted
  | fault (code : Nat)
deriving DecidableEq, Repr

/-- One result of src.Read(buf): the bytes read and the error returned with
them (Go allows n > 0 together with a non-nil error). -/
structure ReadEv where
  data : Chunk
  er : Option GErr
deriving DecidableEq, Repr

/-- One result of dst.Write(p): the count the writer reports (Go int, so it
may be negative or exceed the length written) and the error it returns. -/
structure WriteEv where
  nw : Int
  ew : Option GErr
deriving DecidableEq, Repr

/-- The writer's answer to one Write call: the next scripted event, or the
well-behaved answer (full acceptance, no error) once the script is spent. -/
def wresult : List WriteEv → Chunk → Int × Option GErr
  | [], data => ((data.length : Int), none)
  | e :: _, _ => (e.nw, e.ew)

/-- The writer script after one Write call. -/
def wrest : List WriteEv → List WriteEv
  | [] => []
  | _ :: rest => rest

/-- One dst.Write call followed by the invalid-write fixup both copy loops
share: `nw, ew := dst.Write(buf[0:nr]); if nw < 0 || nr < nw { nw = 0;
if ew == nil { ew = errInvalidWrite } }`.  Returns the clamped count (never
negative, so a Nat) and the adjusted error. -/
def writeFix (wevs : List WriteEv) (data : Chunk) : Nat × Option GErr :=
  let nwRaw := (wresult wevs data).1
  let ewRaw := (wresult wevs data).2
  if nwRaw < 0 ∨ (data.length : Int) < nwRaw then
    (0, if ewRaw = none then some GErr.invalidWrite else ewRaw)
  else (nwRaw.toNat, ewRaw)

/-- Observable outcome of one run of a copy loop: the returned written count,
the returned error, the chunks passed to dst.Write in order, and the chunks
written to os.Stdout in order. -/
structure CopyOut where
  written : Nat
  err : Option GErr
  dstChunks : List Chunk
  stdoutChunks : List Chunk
deriving DecidableEq, Repr

/-- Shallow embedding of the copy loop of CopyBufferWithContext in
src/direct.go (lines 206-240).  `ctx i` tells whether the cancellation
signal is already triggered when iteration `i` starts (the loop's select
takes the Done branch exactly when it is).  On each iteration: if the signal
is triggered, return the count so far and interruptedErr; otherwise read
(consume a read event; an empty script reads as a clean EOF); if nr > 0,
echo the chunk to os.Stdout, write it to dst, clamp a negative or oversized
write count to 0 turning it into errInvalidWrite, add the clamped count,
return on a write error or a short write; finally return on a read error
(io.EOF mapped to a nil error) or continue. -/
def copyDirect (ctx : Nat → Bool) : Nat → Nat → List ReadEv → List WriteEv → CopyOut
  | i, w, revs, wevs =>
    if ctx i then ⟨w, some GErr.interrupted, [], []⟩
    else
      match revs with
      | [] => ⟨w, none, [], []⟩
      | ev :: rest =>
        if 0 < ev.data.length then
          match writeFix wevs ev.data with
          | (nw, some e) => ⟨w + nw, some e, [ev.data], [ev.data]⟩
          | (nw, none) =>
            if ev.data.length ≠ nw then
              ⟨w + nw, some GErr.shortWrite, [ev.data], [ev.data]⟩
            else
              match ev.er with
              | none =>
                let out := copyDirect ctx (i + 1) (w + nw) rest (wrest wevs)
                ⟨out.written, out.err, ev.data :: out.dstChunks,
                  ev.data :: out.stdoutChunks⟩
              | some GErr.eof => ⟨w + nw, none, [ev.data], [ev.data]⟩
              | some e => ⟨w + nw, some e, [ev.data], [ev.data]⟩
        else
          match ev.er with
          | none => copyDirect ctx (i + 1) w rest wevs
          | some GErr.eof => ⟨w, none, [], []⟩
          | some e => ⟨w, some e, [], []⟩

/-- Shallow embedding of the copy loop of CopyBufferWithContext in
src/client.go (lines 269-300).  Identical to the loop of src/direct.go with
two exceptions read off the source: the select's Done branch is a bare
`return`, so the error returned on cancellation is the current `err`, which
is still nil there; and there is no write to os.Stdout (stdoutChunks is
always empty). -/
def copyClient (ctx : Nat → Bool) : Nat → Nat → List ReadEv → List WriteEv → CopyOut
  | i, w, revs, wevs =>
    if ctx i then ⟨w, none, [], []⟩
    else
      match revs with
      | [] => ⟨w, none, [], []⟩
      | ev :: rest =>
        if 0 < ev.data.length then
          match writeFix wevs ev.data with
          | (nw, some e) => ⟨w + nw, some e, [ev.data], []⟩
          | (nw, none) =>
            if ev.data.length ≠ nw then
              ⟨w + nw, some GErr.shortWrite, [ev.data], []⟩
            else
              match ev.er with
              | none =>
                let out := copyClient ctx (i + 1) (w + nw) rest (wrest wevs)
                ⟨out.written, out.err, ev.data :: out.dstChunks, []⟩
              | some GErr.eof => ⟨w + nw, none, [ev.data], []⟩
              | some e => ⟨w + nw, some e, [ev.data], []⟩
        else
          match ev.er with
          | none => copyClient ctx (i + 1) w rest wevs
          | some GErr.eof => ⟨w, none, [], []⟩
          | some e => ⟨w, some e, [], []⟩

/-- The read events of a well-behaved finite reader delivering the given
chunks in order, each read succeeding, followed by a clean EOF (the empty
script). -/
def cleanEvents (chunks : List Chunk) : List ReadEv :=
  chunks.map fun c => ⟨c, none⟩

/-- The chunks a reader over the byte sequence `bytes` returns when every
read fills the whole buffer of size `bufSize`: successive segments of length
`bufSize` (the last one shorter). -/
def chunksOf (bufSize : Nat) (bytes : List Nat) : List Chunk :=
  if bytes = [] ∨ bufSize = 0 then []
  else bytes.take bufSize :: chunksOf bufSize (bytes.drop bufSize)
termination_by bytes.length
decreasing_by
  rename_i h
  push_neg at h
  simp only [List.length_drop]
  exact Nat.sub_lt (List.length_pos.mpr h.1) (Nat.pos_of_ne_zero h.2)

/-- A writer whose script is spent accepts the whole chunk with no error. -/
theorem writeFix_spent (data : Chunk) : writeFix [] data = (data.length, none) := by
  have h : ¬((data.length : Int) < 0 ∨ (data.length : Int) < (data.length : Int)) := by
    omega
  simp [writeFix, wresult, h]

/-- On a well-behaved finite reader (every read succeeds, chunks nonempty)
and a well-behaved writer, with a never-triggered cancellation signal, the
direct.go copy loop passes every chunk to dst in order, echoes the same
chunks to stdout, counts every byte, and returns a nil error. -/
theorem copyDirect_clean_run (ctx : Nat → Bool) (hctx : ∀ j, ctx j = false)
    (chunks : List Chunk) (hc : ∀ c ∈ chunks, c ≠ []) :
    ∀ i w, copyDirect ctx i w (cleanEvents chunks) [] =
      ⟨w + (chunks.map List.length).sum, none, chunks, chunks⟩ := by
  induction chunks with
  | nil => intro i w; simp [cleanEvents, copyDirect, hctx]
  | cons c rest ih =>
    intro i w
    have hcne : c ≠ [] := hc c (by simp)
    have hlen : 0 < c.length := List.length_pos.mpr hcne
    have hrec := ih (fun d hd => hc d (List.mem_cons_of_mem c hd)) (i + 1)
      (w + c.length)
    simp only [cleanEvents, List.map_cons] at hrec ⊢
    rw [copyDirect]
    simp [hctx i, hlen, writeFix_spent, wrest, hrec, Nat.add_assoc]

/-- The concatenation of the full-buffer chunking is the byte sequence
(bounded-length induction step). -/
theorem chunksOf_flatten_aux (bufSize : Nat) (hbs : bufSize ≠ 0) :
    ∀ n, ∀ bytes : List Nat, bytes.length ≤ n →
      (chunksOf bufSize bytes).flatten = bytes := by
  intro n
  induction n with
  | zero =>
    intro bytes h
    have hb : bytes = [] := List.eq_nil_of_length_eq_zero (Nat.le_zero.mp h)
    rw [chunksOf]
    simp [hb]
  | succ n ih =>
    intro bytes h
    rw [chunksOf]
    by_cases hb : bytes = []
    · simp [hb]
    · rw [if_neg (by simp [hb, hbs])]
      have hle : (bytes.drop bufSize).length ≤ n := by
        have := Nat.sub_lt (List.length_pos.mpr hb) (Nat.pos_of_ne_zero hbs)
        simp only [List.length_drop]
        omega
      rw [List.flatten_cons, ih _ hle]
      exact List.take_append_drop bufSize bytes

/-- The concatenation of the full-buffer chunking is the byte sequence. -/
theorem chunksOf_flatten (bufSize : Nat) (hbs : bufSize ≠ 0) (bytes : List Nat) :
    (chunksOf bufSize bytes).flatten = bytes :=
  chunksOf_flatten_aux bufSize hbs bytes.length bytes (Nat.le_refl _)

/-- Every chunk of the full-buffer chunking is nonempty (bounded-length
induction step). -/
theorem chunksOf_ne_nil_aux (bufSize : Nat) :
    ∀ n, ∀ bytes : List Nat, bytes.length ≤ n →
      ∀ c ∈ chunksOf bufSize bytes, c ≠ [] := by
  intro n
  induction n with
  | zero =>
    intro bytes h
    have hb : bytes = [] := List.eq_nil_of_length_eq_zero (Nat.le_zero.mp h)
    rw [chunksOf]
    simp [hb]
  | succ n ih =>
    intro bytes h
    rw [chunksOf]
    by_cases hd : bytes = [] ∨ bufSize = 0
    · simp [hd]
    · push_neg at hd
      rw [if_neg (by simp [hd.1, hd.2])]
      intro c hcmem
      rcases List.mem_cons.mp hcmem with hhd | htl
      · subst hhd
        simp only [ne_eq, List.take_eq_nil_iff]
        push_neg
        exact ⟨fun habs => absurd habs hd.2, fun habs => absurd habs hd.1⟩
      · have hle : (bytes.drop bufSize).length ≤ n := by
          have := Nat.sub_lt (List.length_pos.mpr hd.1) (Nat.pos_of_ne_zero hd.2)
          simp only [List.length_drop]
          omega
        exact ih _ hle c htl

/-- Every chunk of the full-buffer chunking is nonempty. -/
theorem chunksOf_ne_nil (bufSize : Nat) (bytes : List Nat) :
    ∀ c ∈ chunksOf bufSize bytes, c ≠ [] :=
  chunksOf_ne_nil_aux bufSize bytes.length bytes (Nat.le_refl _)

/-- The lengths of the chunks sum to the length of the sequence. -/
theorem chunksOf_length_sum (bufSize : Nat) (hbs : bufSize ≠ 0) (bytes : List Nat) :
    ((chunksOf bufSize bytes).map List.length).sum = bytes.length := by
  have h := congrArg List.length (chunksOf_flatten bufSize hbs bytes)
  simpa [List.length_flatten] using h

/-- C1: For every buffer size >= 1 and every finite byte sequence produced by
src (presented as any succession of successful nonempty reads of at most the
buffer size, followed by a clean EOF), CopyBufferWithContext of src/direct.go
with a never-triggered cancellation signal passes to dst exactly the bytes
read from src in order, returns written equal to the sequence length, and
returns a nil error: the clean EOF ends the copy as success, not as an
error. -/
theorem copyDirect_copies_sequence (bufSize : Nat) (hbs : 1 ≤ bufSize)
    (chunks : List Chunk) (hc : ∀ c ∈ chunks, c ≠ [] ∧ c.length ≤ bufSize) :
    (copyDirect (fun _ => false) 0 0 (cleanEvents chunks) []).dstChunks.flatten
        = chunks.flatten ∧
    (copyDirect (fun _ => false) 0 0 (cleanEvents chunks) []).written
        = chunks.flatten.length ∧
    (copyDirect (fun _ => false) 0 0 (cleanEvents chunks) []).err = none := by
  have h := copyDirect_clean_run (fun _ => false) (fun _ => rfl) chunks
    (fun c hcm => (hc c hcm).1) 0 0
  rw [h]
  simp [List.length_flatten]

/-- Witness for C1 at buffer size 2 and the byte sequence 7, 8, 9 read as the
chunks [7, 8] and [9]. -/
theorem copyDirect_copies_sequence_witness :
    1 ≤ 2 ∧ (∀ c ∈ [[7, 8], [9]], c ≠ [] ∧ List.length c ≤ 2) ∧
    ((copyDirect (fun _ => false) 0 0 (cleanEvents [[7, 8], [9]]) []).dstChunks.flatten
        = ([[7, 8], [9]] : List Chunk).flatten ∧
     (copyDirect (fun _ => false) 0 0 (cleanEvents [[7, 8], [9]]) []).written
        = ([[7, 8], [9]] : List Chunk).flatten.length ∧
     (copyDirect (fun _ => false) 0 0 (cleanEvents [[7, 8], [9]]) []).err = none) :=
  ⟨by decide, by decide,
    copyDirect_copies_sequence 2 (by decide) [[7, 8], [9]] (by decide)⟩

/-- Entering an iteration with the cancellation signal triggered makes the
src/direct.go loop return the count written so far and interruptedErr. -/
theorem copyDirect_cancel (ctx : Nat → Bool) (i w : Nat) (revs : List ReadEv)
    (wevs : List WriteEv) (h : ctx i = true) :
    copyDirect ctx i w revs wevs = ⟨w, some GErr.interrupted, [], []⟩ := by
  rw [copyDirect.eq_def]
  simp [h]

/-- Entering an iteration with the cancellation signal triggered makes the
src/client.go loop return the count written so far and a nil error. -/
theorem copyClient_cancel (ctx : Nat → Bool) (i w : Nat) (revs : List ReadEv)
    (wevs : List WriteEv) (h : ctx i = true) :
    copyClient ctx i w revs wevs = ⟨w, none, [], []⟩ := by
  rw [copyClient.eq_def]
  simp [h]

/-- C2 counterexample: in the src/client.go variant of CopyBufferWithContext,
a copy cancelled before any read returns the very same outcome as a
successful copy of an empty source; in particular its error is not the
distinguished interrupted marker, so the cancelled outcome is not
distinguishable at all. -/
theorem copyClient_cancel_unmarked :
    copyClient (fun _ => true) 0 0 [] [] = copyClient (fun _ => false) 0 0 [] [] ∧
    (copyClient (fun _ => true) 0 0 [] []).err ≠ some GErr.interrupted := by
  decide

/-- C2 amended: on any iteration entered with the cancellation signal
triggered, both variants return the bytes written so far and never an
I/O-fault error; the src/direct.go variant returns the distinguished
interruptedErr (distinct from every fault, short-write and invalid-write
error), while the src/client.go variant returns a nil error, which is
indistinguishable from clean success.  Before any read this means zero bytes
written. -/
theorem copy_cancelled_outcomes (ctx : Nat → Bool) (i w : Nat)
    (revs : List ReadEv) (wevs : List WriteEv) (h : ctx i = true) :
    copyDirect ctx i w revs wevs = ⟨w, some GErr.interrupted, [], []⟩ ∧
    copyClient ctx i w revs wevs = ⟨w, none, [], []⟩ ∧
    (∀ n, GErr.interrupted ≠ GErr.fault n) ∧
    GErr.interrupted ≠ GErr.shortWrite ∧
    GErr.interrupted ≠ GErr.invalidWrite :=
  ⟨copyDirect_cancel ctx i w revs wevs h, copyClient_cancel ctx i w revs wevs h,
    fun n => by simp, by simp, by simp⟩

/-- Witness for C2 (amended) with a signal triggered from the start and no
reads performed. -/
theorem copy_cancelled_outcomes_witness :
    (fun _ : Nat => true) 0 = true ∧
    (copyDirect (fun _ => true) 0 0 [] [] = ⟨0, some GErr.interrupted, [], []⟩ ∧
     copyClient (fun _ => true) 0 0 [] [] = ⟨0, none, [], []⟩ ∧
     (∀ n, GErr.interrupted ≠ GErr.fault n) ∧
     GErr.interrupted ≠ GErr.shortWrite ∧
     GErr.interrupted ≠ GErr.invalidWrite) :=
  ⟨rfl, copy_cancelled_outcomes (fun _ => true) 0 0 [] [] rfl⟩

/-- C10 counterexample: the two textual variants of CopyBufferWithContext
are not observationally equivalent.  On a copy cancelled before any read
they return different errors (src/direct.go returns interruptedErr,
src/client.go returns nil), and on a one-chunk source the src/direct.go
variant writes the copied data to os.Stdout as well, while the src/client.go
variant writes it only to dst. -/
theorem copy_variants_differ :
    (copyDirect (fun _ => true) 0 0 [] []).err
        ≠ (copyClient (fun _ => true) 0 0 [] []).err ∧
    (copyDirect (fun _ => false) 0 0 [⟨[1], none⟩] []).stdoutChunks = [[1]] ∧
    (copyClient (fun _ => false) 0 0 [⟨[1], none⟩] []).stdoutChunks = [] := by
  decide

/-- C10 amended: for every cancellation signal, reader and writer the two
variants agree on the written count, on the chunks passed to dst and on the
returned error except on the cancelled return, where src/direct.go gives the
distinguished interruptedErr and src/client.go gives nil; they differ in
that src/direct.go echoes exactly the chunks it passes to dst to os.Stdout,
while src/client.go writes the copied data nowhere but dst. -/
theorem copy_variants_agree_modulo (ctx : Nat → Bool) (revs : List ReadEv) :
    ∀ i w wevs,
      (copyClient ctx i w revs wevs).written
          = (copyDirect ctx i w revs wevs).written ∧
      (copyClient ctx i w revs wevs).dstChunks
          = (copyDirect ctx i w revs wevs).dstChunks ∧
      (copyClient ctx i w revs wevs).stdoutChunks = [] ∧
      (copyDirect ctx i w revs wevs).stdoutChunks
          = (copyDirect ctx i w revs wevs).dstChunks ∧
      ((copyClient ctx i w revs wevs).err = (copyDirect ctx i w revs wevs).err ∨
        ((copyDirect ctx i w revs wevs).err = some GErr.interrupted ∧
         (copyClient ctx i w revs wevs).err = none)) := by
  induction revs with
  | nil =>
    intro i w wevs
    by_cases h : ctx i <;>
      simp [copyDirect.eq_def, copyClient.eq_def, h]
  | cons ev rest ih =>
    intro i w wevs
    rcases ev with ⟨data, er⟩
    by_cases h : ctx i
    · simp [copyDirect.eq_def, copyClient.eq_def, h]
    · rw [copyDirect.eq_def, copyClient.eq_def]
      simp only [Bool.not_eq_true] at h
      simp only [h, Bool.false_eq_true, if_false]
      by_cases hnr : 0 < data.length
      · simp only [hnr, if_true]
        rcases hwf : writeFix wevs data with ⟨nw, ew⟩
        rcases ew with _ | e
        · by_cases hsw : data.length ≠ nw
          · simp [hsw]
          · rcases er with _ | e'
            · have hrec := ih (i + 1) (w + nw) (wrest wevs)
              simp only [hsw, if_neg, ite_false, if_false]
              simp only [ne_eq, not_not] at hsw
              simp [hsw, hrec.1, hrec.2.1, hrec.2.2.1, hrec.2.2.2.1]
              exact hrec.2.2.2.2
            · cases e' <;> simp [hsw]
        · simp
      · simp only [hnr, if_false]
        rcases er with _ | e'
        · exact ih (i + 1) w wevs
        · cases e' <;> simp

/-
bindConnsWithBuffer (src/direct.go lines 59-85) spawns two goroutines over a
wait group of count 2 and blocks in wg.Wait().  Goroutine A runs
CopyBufferWithContext(rconn, lconn, writeBuf, wctx) then lconn.Close(), then
rconn.Close(), then wg.Done(); goroutine B runs
CopyBufferWithContext(lconn, rconn, readBuf, rctx) then lconn.Close(), then
rconn.Close(), then wg.Done().  The state below records each goroutine's
program counter (0 = inside the copy, 1 = copy returned, 2 = after
lconn.Close(), 3 = after rconn.Close(), 4 = after wg.Done()) and whether
each connection has been closed at least once; closing is idempotent, a
second Close only repeats the flag.  wg.Wait() returns exactly when both
counters are 4.  A copy's return is modelled as an always-enabled step:
whatever the copy is blocked on, closing the underlying connections makes
its pending read or write fail, which the loop treats as termination — the
cooperative-cancellation argument of the design itself.
-/

/-- Joint state of the two goroutines of bindConnsWithBuffer: both program
counters and the closed flags of the local and remote connection. -/
structure BindState where
  pcA : Nat
  pcB : Nat
  lClosed : Bool
  rClosed : Bool
deriving DecidableEq, Repr

/-- The state in which bindConnsWithBuffer spawns its two goroutines. -/
def bindStart : BindState := ⟨0, 0, false, false⟩

/-- One scheduler step of either goroutine of bindConnsWithBuffer. -/
inductive BindStep : BindState → BindState → Prop
  | copyA (b : Nat) (l r : Bool) : BindStep ⟨0, b, l, r⟩ ⟨1, b, l, r⟩
  | closeLA (b : Nat) (l r : Bool) : BindStep ⟨1, b, l, r⟩ ⟨2, b, true, r⟩
  | closeRA (b : Nat) (l r : Bool) : BindStep ⟨2, b, l, r⟩ ⟨3, b, l, true⟩
  | doneA (b : Nat) (l r : Bool) : BindStep ⟨3, b, l, r⟩ ⟨4, b, l, r⟩
  | copyB (a : Nat) (l r : Bool) : BindStep ⟨a, 0, l, r⟩ ⟨a, 1, l, r⟩
  | closeLB (a : Nat) (l r : Bool) : BindStep ⟨a, 1, l, r⟩ ⟨a, 2, true, r⟩
  | closeRB (a : Nat) (l r : Bool) : BindStep ⟨a, 2, l, r⟩ ⟨a, 3, l, true⟩
  | doneB (a : Nat) (l r : Bool) : BindStep ⟨a, 3, l, r⟩ ⟨a, 4, l, r⟩

/-- The states bindConnsWithBuffer can be in: reachable from the spawn state
by scheduler steps. -/
def BindReach (s : BindState) : Prop :=
  Relation.ReflTransGen BindStep bindStart s

/-- Inductive invariant of the binding: counters stay in range and a counter
past a Close records that the Close happened. -/
def BindInv (s : BindState) : Prop :=
  s.pcA ≤ 4 ∧ s.pcB ≤ 4 ∧
  (2 ≤ s.pcA → s.lClosed = true) ∧ (3 ≤ s.pcA → s.rClosed = true) ∧
  (2 ≤ s.pcB → s.lClosed = true) ∧ (3 ≤ s.pcB → s.rClosed = true)

theorem bindInv_start : BindInv bindStart := by
  simp [BindInv, bindStart]

theorem bindInv_step {s t : BindState} (hs : BindInv s) (h : BindStep s t) :
    BindInv t := by
  cases h <;> simp_all [BindInv]

theorem bindInv_reach {s : BindState} (h : BindReach s) : BindInv s := by
  induction h with
  | refl => exact bindInv_start
  | tail _ hstep ih => exact bindInv_step ih hstep

/-- Goroutine A can always run to completion from any in-range state, and
doing so leaves both connections closed. -/
theorem bindFinishA (s : BindState) (hInv : BindInv s) :
    ∃ t, Relation.ReflTransGen BindStep s t ∧ t.pcA = 4 ∧ t.pcB = s.pcB ∧
      t.lClosed = true ∧ t.rClosed = true ∧ BindInv t := by
  obtain ⟨a, b, l, r⟩ := s
  obtain ⟨hA, hB, h2A, h3A, h2B, h3B⟩ := hInv
  simp only at hA hB h2A h3A h2B h3B
  interval_cases a
  · exact ⟨⟨4, b, true, true⟩,
      .head (.copyA b l r) (.head (.closeLA b l r)
        (.head (.closeRA b true r) (.head (.doneA b true true) .refl))),
      rfl, rfl, rfl, rfl, by simp [BindInv]; omega⟩
  · exact ⟨⟨4, b, true, true⟩,
      .head (.closeLA b l r) (.head (.closeRA b true r)
        (.head (.doneA b true true) .refl)),
      rfl, rfl, rfl, rfl, by simp [BindInv]; omega⟩
  · have hl : l = true := h2A (by omega)
    subst hl
    exact ⟨⟨4, b, true, true⟩,
      .head (.closeRA b true r) (.head (.doneA b true true) .refl),
      rfl, rfl, rfl, rfl, by simp [BindInv]; omega⟩
  · have hl : l = true := h2A (by omega)
    have hr : r = true := h3A (by omega)
    subst hl; subst hr
    exact ⟨⟨4, b, true, true⟩, .head (.doneA b true true) .refl,
      rfl, rfl, rfl, rfl, by simp [BindInv]; omega⟩
  · have hl : l = true := h2A (by omega)
    have hr : r = true := h3A (by omega)
    subst hl; subst hr
    exact ⟨⟨4, b, true, true⟩, .refl, rfl, rfl, rfl, rfl, by simp [BindInv]; omega⟩

/-- Goroutine B can always run to completion from any in-range state in
which goroutine A is already done, preserving the closed flags. -/
theorem bindFinishB (s : BindState) (hInv : BindInv s) (hA : s.pcA = 4)
    (hl : s.lClosed = true) (hr : s.rClosed = true) :
    ∃ t, Relation.ReflTransGen BindStep s t ∧ t.pcA = 4 ∧ t.pcB = 4 ∧
      t.lClosed = true ∧ t.rClosed = true := by
  obtain ⟨a, b, l, r⟩ := s
  obtain ⟨_, hB, _, _, _, _⟩ := hInv
  simp only at hA hl hr hB
  subst hA; subst hl; subst hr
  interval_cases b
  · exact ⟨⟨4, 4, true, true⟩,
      .head (.copyB 4 true true) (.head (.closeLB 4 true true)
        (.head (.closeRB 4 true true) (.head (.doneB 4 true true) .refl))),
      rfl, rfl, rfl, rfl⟩
  · exact ⟨⟨4, 4, true, true⟩,
      .head (.closeLB 4 true true) (.head (.closeRB 4 true true)
        (.head (.doneB 4 true true) .refl)),
      rfl, rfl, rfl, rfl⟩
  · exact ⟨⟨4, 4, true, true⟩,
      .head (.closeRB 4 true true) (.head (.doneB 4 true true) .refl),
      rfl, rfl, rfl, rfl⟩
  · exact ⟨⟨4, 4, true, true⟩, .head (.doneB 4 true true) .refl,
      rfl, rfl, rfl, rfl⟩
  · exact ⟨⟨4, 4, true, true⟩, .refl, rfl, rfl, rfl, rfl⟩

/-- C3: in every reachable state of bindConnsWithBuffer, (i) if the call has
returned (wg.Wait saw both goroutines done) then both the local and the
remote connection are closed and no goroutine step is left to run — no
background copy survives the call; and (ii) the binding can always run on to
such a returned state in which both connections are closed, whichever
direction ended first and however the two directions interleave. -/
theorem bindConns_closes_and_joins (s : BindState) (h : BindReach s) :
    (s.pcA = 4 → s.pcB = 4 →
      s.lClosed = true ∧ s.rClosed = true ∧ ¬∃ t, BindStep s t) ∧
    (∃ t, Relation.ReflTransGen BindStep s t ∧ t.pcA = 4 ∧ t.pcB = 4 ∧
      t.lClosed = true ∧ t.rClosed = true) := by
  have hInv := bindInv_reach h
  constructor
  · intro hA hB
    refine ⟨hInv.2.2.1 (by omega), hInv.2.2.2.1 (by omega), ?_⟩
    rintro ⟨t, hstep⟩
    obtain ⟨a, b, l, r⟩ := s
    simp only at hA hB
    subst hA; subst hB
    cases hstep
  · obtain ⟨t, hsteps, htA, _, htl, htr, htInv⟩ := bindFinishA s hInv
    obtain ⟨u, hsteps2, huA, huB, hul, hur⟩ := bindFinishB t htInv htA htl htr
    exact ⟨u, hsteps.trans hsteps2, huA, huB, hul, hur⟩

/-- Witness for C3 at the spawn state of the binding. -/
theorem bindConns_closes_and_joins_witness :
    BindReach bindStart ∧
    ((bindStart.pcA = 4 → bindStart.pcB = 4 →
        bindStart.lClosed = true ∧ bindStart.rClosed = true ∧
        ¬∃ t, BindStep bindStart t) ∧
     (∃ t, Relation.ReflTransGen BindStep bindStart t ∧ t.pcA = 4 ∧
        t.pcB = 4 ∧ t.lClosed = true ∧ t.rClosed = true)) :=
  ⟨Relation.ReflTransGen.refl,
    bindConns_closes_and_joins bindStart Relation.ReflTransGen.refl⟩

/-- The actions of the per-connection goroutine that RedirectToWithBuffer
(src/direct.go lines 102-128) spawns for an accepted connection lconn, with
the actions of the two copy goroutines it spawns on success appended, each
in its program order (the two copy goroutines interleave in a real run, but
which actions are eventually performed does not depend on the
interleaving).  The goroutine dials the remote target; on a dial error it
returns at once, performing nothing else; on success each copy goroutine
runs its copy and then closes lconn and rconn. -/
inductive FwdAct where
  | dialAttempt
  | copyDir
  | closeLconn
  | closeRconn
deriving DecidableEq, Repr

def redirectPerConnActions (dialSucceeds : Bool) : List FwdAct :=
  if dialSucceeds then
    [FwdAct.dialAttempt,
     FwdAct.copyDir, FwdAct.closeLconn, FwdAct.closeRconn,
     FwdAct.copyDir, FwdAct.closeLconn, FwdAct.closeRconn]
  else
    [FwdAct.dialAttempt]

/-- C4 (code evaluated at the failing input): when the remote dial for an
accepted connection fails, the per-connection task of RedirectToWithBuffer
performs no close of the accepted local connection — the connection stays
open with nobody servicing it — whereas on a successful dial both sides are
closed by each copy direction. -/
theorem redirect_dial_failure_leaves_conn_open :
    FwdAct.closeLconn ∉ redirectPerConnActions false ∧
    FwdAct.closeLconn ∈ redirectPerConnActions true ∧
    FwdAct.closeRconn ∈ redirectPerConnActions true := by
  decide

/-- One Accept outcome seen by the accept loop of DirectTcpToWithBuffer
(src/direct.go lines 142-174): either Accept fails, or a connection is
accepted and the configured NewConnCb hook answers with or without an
error. -/
inductive AcceptEv where
  | acceptFailed
  | accepted (hookErr : Bool)
deriving DecidableEq, Repr

/-- Shallow embedding of the accept loop of DirectTcpToWithBuffer: iteration
i first polls the cancellation signal, then consumes the next Accept
outcome.  An Accept error ends the loop; with the hook configured, a hook
error makes the loop return as well (the `return` at src/direct.go line
154); otherwise a forwarding goroutine is spawned for the connection and the
loop continues.  The result lists the iteration numbers of the connections
for which a forwarding goroutine was spawned. -/
def directTcpLoop (hookConfigured : Bool) (ctx : Nat → Bool) :
    Nat → List AcceptEv → List Nat
  | _, [] => []
  | i, ev :: rest =>
    if ctx i then []
    else
      match ev with
      | AcceptEv.acceptFailed => []
      | AcceptEv.accepted hookErr =>
        if hookConfigured ∧ hookErr then []
        else i :: directTcpLoop hookConfigured ctx (i + 1) rest

/-- C5 (code evaluated at the failing input): with a hook configured, a hook
error on the first accepted connection terminates the whole accept loop —
the waiting second connection is never served — while without the hook error
both connections are served.  The claim that the loop continues accepting
after a hook error does not hold. -/
theorem directTcp_hook_error_stops_loop :
    directTcpLoop true (fun _ => false) 0
        [AcceptEv.accepted true, AcceptEv.accepted false] = [] ∧
    directTcpLoop true (fun _ => false) 0
        [AcceptEv.accepted false, AcceptEv.accepted false] = [0, 1] := by
  decide

/-- What the KeepAlive goroutine (src/session.go lines 77-126) observes on
one pass of its select: the cancellation handle fired, or the ticker fired
and the keepalive send then succeeds or fails. -/
inductive KEv where
  | cancelled
  | tick (sendOk : Bool)
deriving DecidableEq, Repr

/-- The budgeted KeepAlive loop (src/session.go lines 102-122), entered when
maxErrRetries > 0: on each tick a send is attempted; on a send failure the
loop first tests `maxErrRetries <= 0` and returns if so, else decrements
maxErrRetries.  Returns the number of sends attempted within the given
schedule of events. -/
def keepAliveLoop : Int → List KEv → Nat
  | _, [] => 0
  | budget, ev :: rest =>
    match ev with
    | KEv.cancelled => 0
    | KEv.tick sendOk =>
      if sendOk then 1 + keepAliveLoop budget rest
      else if budget ≤ 0 then 1
      else 1 + keepAliveLoop (budget - 1) rest

/-- The unbudgeted KeepAlive loop (src/session.go lines 84-98), entered when
maxErrRetries <= 0: the send result is discarded, the loop ends only on
cancellation. -/
def keepAliveLoopUnlimited : List KEv → Nat
  | [] => 0
  | KEv.cancelled :: _ => 0
  | KEv.tick _ :: rest => 1 + keepAliveLoopUnlimited rest

/-- KeepAlive's dispatch (src/session.go lines 77-126): no goroutine at all
when interval <= 0, the unbudgeted loop when maxErrRetries <= 0, the
budgeted loop otherwise.  Returns the number of keepalive sends attempted
within the given schedule. -/
def keepAliveSends (interval maxErrRetries : Int) (evs : List KEv) : Nat :=
  if interval ≤ 0 then 0
  else if maxErrRetries ≤ 0 then keepAliveLoopUnlimited evs
  else keepAliveLoop maxErrRetries evs

/-- C6 (code evaluated at the failing input): with maxFailures = 1, the
first failed send does not stop KeepAlive — a second send is attempted, and
only the second failure stops the loop (off by one against the claim, and
against the stated budget semantics); the maxFailures <= 0 half of the claim
does hold: sends continue through any number of failures until cancelled. -/
theorem keepAlive_attempts_extra_send :
    keepAliveSends 1 1 [KEv.tick false] = 1 ∧
    keepAliveSends 1 1 [KEv.tick false, KEv.tick false] = 2 ∧
    keepAliveSends 1 1 [KEv.tick false, KEv.tick false, KEv.tick false] = 2 ∧
    keepAliveSends 1 0 [KEv.tick false, KEv.tick false, KEv.tick false] = 3 ∧
    keepAliveSends 1 0 [KEv.tick false, KEv.cancelled, KEv.tick false] = 1 := by
  decide

/-- A known_hosts record line by its three fields, field values as abstract
atoms.  Modelled from the spec: the persisted trust store is line-oriented
with record format `<host> <key-type> <base64-key>`, and knownhosts.Line (a
function of the external x/crypto library, not part of src/) renders one
such line from the address passed to it and the presented key. -/
structure KHLine where
  host : Nat
  keyKind : Nat
  keyB64 : Nat
deriving DecidableEq, Repr

/-- One answer read by fmt.Scan in the interactive flow of KnownHostsCheck,
as the code observes it: a Scan error, or a word together with the three
tests the code applies to it — strings.ToLower(answer) == "yes",
strings.ToLower(answer) == "no", and the case-sensitive answer == "yes". -/
inductive Ans where
  | scanFailed
  | word (lowerYes lowerNo exactYes : Bool)
deriving DecidableEq, Repr

/-- The errors KnownHostsCheck (src/session.go lines 458-511) can return:
no known_hosts file given; a revoked-key or other error from
knownhosts.New; the error of the knownhosts callback on the presented
identity (for an unknown host or a changed key this is its key error); a
Scan error; and the function's own "unknown host" error on an interactive
rejection. -/
inductive KHErr where
  | noFiles
  | revoked
  | newOther
  | cbKey
  | cbOther
  | scanFail
  | unknownHost
deriving DecidableEq, Repr

/-- Observable outcome of one KnownHostsCheck call: the returned error (nil
means the connection proceeds), the record lines appended to the first
known_hosts file, and how many interactive questions were asked. -/
structure KHOut where
  err : Option KHErr
  appended : List KHLine
  questionsAsked : Nat
deriving DecidableEq, Repr

/-- Shallow embedding of KnownHostsChecker.KnownHostsCheck (src/session.go
lines 458-511).  filesEmpty: kw.files is nil or empty; newErr: the error
knownhosts.New returns for the files (the code only inspects whether it is
nil, passing it through otherwise, after printing a note when it is a
revocation and the mode is interactive); cbErr: the error the returned
callback gives for (hostname, remote, key), nil exactly when a matching
record exists; answers: the successive fmt.Scan results (a reader with no
answers left fails the Scan); line: the fields of the record
knownhosts.Line([]string{remote.String()}, key) would render.  Mirrors the
source: a non-nil callback error is returned at once; only when the
callback succeeded and the mode is interactive does the two-question flow
run, appending `line` exactly when the first answer lowercases to yes and
the second is exactly the lowercase yes. -/
def knownHostsCheck (filesEmpty interactive : Bool)
    (newErr cbErr : Option KHErr) (answers : List Ans) (line : KHLine) :
    KHOut :=
  if filesEmpty then ⟨some KHErr.noFiles, [], 0⟩
  else
    match newErr with
    | some e => ⟨some e, [], 0⟩
    | none =>
      match cbErr with
      | some e => ⟨some e, [], 0⟩
      | none =>
        if !interactive then ⟨none, [], 0⟩
        else
          match answers with
          | [] => ⟨some KHErr.scanFail, [], 1⟩
          | Ans.scanFailed :: _ => ⟨some KHErr.scanFail, [], 1⟩
          | Ans.word lowerYes _ _ :: rest =>
            if lowerYes then
              match rest with
              | [] => ⟨some KHErr.scanFail, [], 2⟩
              | Ans.scanFailed :: _ => ⟨some KHErr.scanFail, [], 2⟩
              | Ans.word _ lowerNo2 exactYes2 :: _ =>
                if lowerNo2 then ⟨none, [], 2⟩
                else if exactYes2 then ⟨none, [line], 2⟩
                else ⟨none, [], 2⟩
            else ⟨some KHErr.unknownHost, [], 1⟩

/-- C7 (code evaluated at the failing input): a host identity with no
matching record (the callback answers its key error), interactive mode on, a
user ready to answer yes to both questions — KnownHostsCheck returns the key
error at once, asks no question and appends nothing.  The interactive
accept/reject flow runs only when the callback already matched the host. -/
theorem knownHosts_unknown_interactive_fails :
    knownHostsCheck false true none (some KHErr.cbKey)
        [Ans.word true false true, Ans.word true false true] ⟨0, 1, 2⟩
      = ⟨some KHErr.cbKey, [], 0⟩ ∧
    knownHostsCheck false true none none
        [Ans.word true false true, Ans.word true false false] ⟨0, 1, 2⟩
      = ⟨none, [], 2⟩ := by
  decide

/-- C8 (code evaluated at the failing input): an unknown host is never
interactively accepted — the call fails with zero lines appended even with
both answers affirmative — while the append-exactly-one-line yes/yes flow
and the append-nothing yes/no flow run only after the store already matched
the host. -/
theorem knownHosts_accept_persist_unreachable :
    (knownHostsCheck false true none (some KHErr.cbKey)
        [Ans.word true false true, Ans.word true false true] ⟨3, 4, 5⟩).appended
      = [] ∧
    (knownHostsCheck false true none (some KHErr.cbKey)
        [Ans.word true false true, Ans.word true false true] ⟨3, 4, 5⟩).err
      ≠ none ∧
    (knownHostsCheck false true none none
        [Ans.word true false true, Ans.word true false true] ⟨3, 4, 5⟩).appended
      = [⟨3, 4, 5⟩] ∧
    (knownHostsCheck false true none none
        [Ans.word true false true, Ans.word true true false] ⟨3, 4, 5⟩).appended
      = [] := by
  decide

/-- Modelled from the spec: the transport-library session wrapped by Session
(ssh.Session of the external x/crypto library, not part of src/).  The
single-execution contract of a session channel: a shell or exec start may be
issued at most once; once one has been issued, a further start attempt fails
with an error and sends nothing to the remote. -/
structure ChanSess where
  started : Bool
deriving DecidableEq, Repr

/-- A start request sent to the remote over the session channel: a shell
request or an exec request for a command line (commands as abstract
atoms). -/
inductive SessReq where
  | shellReq
  | execReq (cmd : Nat)
deriving DecidableEq, Repr

/-- The errors the wrapped session and the wrappers surface for this claim:
the already-started refusal, and whatever Wait returns for the completed
command (an exit error as an abstract code). -/
inductive SessErr where
  | alreadyStarted
  | waitErr (code : Nat)
deriving DecidableEq, Repr

/-- Modelled from the spec: issuing one start request on the wrapped
session.  Refused without side effects when a start was already issued;
otherwise the request goes out and the session is marked started. -/
def sessStart (req : SessReq) (s : ChanSess) :
    ChanSess × Option SessErr × List SessReq :=
  if s.started then (s, some SessErr.alreadyStarted, [])
  else (⟨true⟩, none, [req])

/-- Session.Shell (src/session.go lines 53-58): sess.Shell(), and only on
its success sess.Wait(); waitRes is whatever Wait returns once the remote
signals completion. -/
def sessionShell (waitRes : Option SessErr) (s : ChanSess) :
    ChanSess × Option SessErr × List SessReq :=
  match sessStart SessReq.shellReq s with
  | (s1, some e, reqs) => (s1, some e, reqs)
  | (s1, none, reqs) => (s1, waitRes, reqs)

/-- Session.Exec (src/session.go lines 61-63): sess.Run(cmdline), which is
a start of the command followed by Wait. -/
def sessionExec (cmd : Nat) (waitRes : Option SessErr) (s : ChanSess) :
    ChanSess × Option SessErr × List SessReq :=
  match sessStart (SessReq.execReq cmd) s with
  | (s1, some e, reqs) => (s1, some e, reqs)
  | (s1, none, reqs) => (s1, waitRes, reqs)

/-- Invoking Shell or Exec on a Session, by the kind of start requested. -/
def sessionInvoke : SessReq → Option SessErr → ChanSess →
    ChanSess × Option SessErr × List SessReq
  | SessReq.shellReq, w, s => sessionShell w s
  | SessReq.execReq c, w, s => sessionExec c w s

/-- C9: a first Shell or Exec on a fresh session sends exactly its one start
request and marks the session started; any further Shell or Exec invocation
on that session returns an error, sends no second remote request, and leaves
the session state unchanged — the running state is entered at most once. -/
theorem session_single_execution (first req : SessReq)
    (w1 w2 : Option SessErr) (s : ChanSess)
    (h : s = (sessionInvoke first w1 ⟨false⟩).1) :
    (sessionInvoke first w1 ⟨false⟩).2.2 = [first] ∧
    s.started = true ∧
    (sessionInvoke req w2 s).2.1 = some SessErr.alreadyStarted ∧
    (sessionInvoke req w2 s).2.2 = [] ∧
    (sessionInvoke req w2 s).1 = s := by
  subst h
  cases first <;> cases req <;>
    simp [sessionInvoke, sessionShell, sessionExec, sessStart]

/-- Witness for C9: shell first, then an exec attempt on the same session. -/
theorem session_single_execution_witness :
    ((⟨true⟩ : ChanSess) = (sessionInvoke SessReq.shellReq none ⟨false⟩).1) ∧
    ((sessionInvoke SessReq.shellReq none ⟨false⟩).2.2 = [SessReq.shellReq] ∧
     (⟨true⟩ : ChanSess).started = true ∧
     (sessionInvoke (SessReq.execReq 0) none ⟨true⟩).2.1
        = some SessErr.alreadyStarted ∧
     (sessionInvoke (SessReq.execReq 0) none ⟨true⟩).2.2 = [] ∧
     (sessionInvoke (SessReq.execReq 0) none ⟨true⟩).1 = ⟨true⟩) :=
  ⟨rfl, session_single_execution SessReq.shellReq (SessReq.execReq 0)
    none none ⟨true⟩ rfl⟩

end Gossh
